import Mathlib

/-!
Shallow embedding of the MemoryVault extension core (a SillyTavern
memory extension) and proofs about it.

JavaScript numbers are modelled as `Int` (no claim depends on fractional
values), JS arrays as `List`, JS objects used as maps as association
lists or functions into `Option`, absent/`undefined` fields as `Option`,
and JS strings as Lean `String` (character-level operations work on
`String.data`; only ASCII case folding is relevant to the phrase lists).
-/

namespace MemoryVault

/-! ## String helpers (model of `String.prototype.includes` and friends) -/

/-- Does the first list start with the second one? (helper for substring search). -/
def startsWithChars : List Char → List Char → Bool
  | _, [] => true
  | [], _ :: _ => false
  | c :: s, p :: ps => c == p && startsWithChars s ps

/-- Model of JavaScript `haystack.includes(needle)` on exploded strings. -/
def containsSub : List Char → List Char → Bool
  | [], pat => pat.isEmpty
  | c :: s, pat => startsWithChars (c :: s) pat || containsSub s pat

/-! ## Relationship model (`extraction/parser.js`)

`Relationship` carries the seven bounded dimensions plus metadata
initialised by `updateRelationshipsFromEvents`.  The `history` array
(appended by `updateRelationshipsFromEvents`, untouched by the two
impact appliers) is not modelled. -/

structure Relationship where
  character_a : String
  character_b : String
  trust_level : Int
  tension_level : Int
  respect_level : Int
  attraction_level : Int
  fear_level : Int
  loyalty_level : Int
  familiarity_level : Int
  relationship_type : String
  deriving DecidableEq, Repr

/-- The default relationship created lazily by `updateRelationshipsFromEvents`. -/
def defaultRelationship (a b : String) : Relationship where
  character_a := a
  character_b := b
  trust_level := 5
  tension_level := 0
  respect_level := 5
  attraction_level := 0
  fear_level := 0
  loyalty_level := 5
  familiarity_level := 1
  relationship_type := "acquaintance"

/-- A structured relationship impact: each dimension is `some` delta exactly
when the JS object carries a numeric field of that name
(the `typeof impact.x === 'number'` checks). -/
structure StructuredImpact where
  trust : Option Int := none
  tension : Option Int := none
  respect : Option Int := none
  attraction : Option Int := none
  fear : Option Int := none
  loyalty : Option Int := none
  familiarity : Option Int := none
  deriving DecidableEq, Repr

/-- `clamp(value, min, max)` from `extraction/parser.js`. -/
def clamp (value lo hi : Int) : Int :=
  min hi (max lo value)

/-- `applyStructuredImpact(rel, impact)`: add each provided numeric delta to
the corresponding dimension, clamped to `[0, 10]`. -/
def applyStructuredImpact (rel : Relationship) (impact : StructuredImpact) : Relationship :=
  let rel := match impact.trust with
    | some v => { rel with trust_level := clamp (rel.trust_level + v) 0 10 }
    | none => rel
  let rel := match impact.tension with
    | some v => { rel with tension_level := clamp (rel.tension_level + v) 0 10 }
    | none => rel
  let rel := match impact.respect with
    | some v => { rel with respect_level := clamp (rel.respect_level + v) 0 10 }
    | none => rel
  let rel := match impact.attraction with
    | some v => { rel with attraction_level := clamp (rel.attraction_level + v) 0 10 }
    | none => rel
  let rel := match impact.fear with
    | some v => { rel with fear_level := clamp (rel.fear_level + v) 0 10 }
    | none => rel
  let rel := match impact.loyalty with
    | some v => { rel with loyalty_level := clamp (rel.loyalty_level + v) 0 10 }
    | none => rel
  match impact.familiarity with
    | some v => { rel with familiarity_level := clamp (rel.familiarity_level + v) 0 10 }
    | none => rel

/-- Trust block of `applyLegacyImpact` (`inc` is the lower-cased
`includes` test of the impact string). -/
def legacyTrust (inc : String → Bool) (rel : Relationship) : Relationship :=
  if inc "trust" && (inc "increas" || inc "deepen" || inc "gain") then
    { rel with trust_level := min 10 (rel.trust_level + 1) }
  else if inc "trust" && (inc "decreas" || inc "lost" || inc "betray") then
    { rel with trust_level := max 0 (rel.trust_level - 1) }
  else rel

/-- Tension block of `applyLegacyImpact`. -/
def legacyTension (inc : String → Bool) (rel : Relationship) : Relationship :=
  if inc "tension" && inc "increas" then
    { rel with tension_level := min 10 (rel.tension_level + 1) }
  else if inc "tension" && inc "decreas" then
    { rel with tension_level := max 0 (rel.tension_level - 1) }
  else rel

/-- Respect block of `applyLegacyImpact`. -/
def legacyRespect (inc : String → Bool) (rel : Relationship) : Relationship :=
  if inc "respect" && (inc "gain" || inc "increas" || inc "shown") then
    { rel with respect_level := min 10 (rel.respect_level + 1) }
  else if inc "respect" && (inc "lost" || inc "decreas") then
    { rel with respect_level := max 0 (rel.respect_level - 1) }
  else rel

/-- Attraction block of `applyLegacyImpact`. -/
def legacyAttraction (inc : String → Bool) (rel : Relationship) : Relationship :=
  if inc "attract" || inc "desire" || inc "romantic" || inc "intimacy" then
    { rel with attraction_level := min 10 (rel.attraction_level + 1) }
  else rel

/-- Fear block of `applyLegacyImpact`. -/
def legacyFear (inc : String → Bool) (rel : Relationship) : Relationship :=
  if inc "fear" || inc "intimidat" || inc "threat" then
    { rel with fear_level := min 10 (rel.fear_level + 1) }
  else if inc "reassur" || inc "comfort" then
    { rel with fear_level := max 0 (rel.fear_level - 1) }
  else rel

/-- Loyalty block of `applyLegacyImpact`. -/
def legacyLoyalty (inc : String → Bool) (rel : Relationship) : Relationship :=
  if inc "loyal" || inc "devotion" || inc "commit" then
    { rel with loyalty_level := min 10 (rel.loyalty_level + 1) }
  else if inc "betray" || inc "abandon" then
    { rel with loyalty_level := max 0 (rel.loyalty_level - 1) }
  else rel

/-- Body of `applyLegacyImpact`, abstracted over the lower-cased `includes`
test `inc`: run the six keyword blocks in source order, then
unconditionally bump familiarity by one (capped at 10). -/
def legacyBody (inc : String → Bool) (rel : Relationship) : Relationship :=
  let rel := legacyTrust inc rel
  let rel := legacyTension inc rel
  let rel := legacyRespect inc rel
  let rel := legacyAttraction inc rel
  let rel := legacyFear inc rel
  let rel := legacyLoyalty inc rel
  { rel with familiarity_level := min 10 (rel.familiarity_level + 1) }

/-- `applyLegacyImpact(rel, impactStr)`: keyword-match the lower-cased free
text against the per-dimension phrase lists, then unconditionally bump
familiarity by one (capped at 10). -/
def applyLegacyImpact (rel : Relationship) (impactStr : String) : Relationship :=
  legacyBody (fun pat => containsSub (impactStr.data.map Char.toLower) pat.data) rel

/-- The two shapes a relationship impact can take in
`updateRelationshipsFromEvents`: a structured object or a legacy string. -/
inductive ImpactValue where
  | structured (s : StructuredImpact)
  | legacy (s : String)
  deriving DecidableEq, Repr

/-- Dispatch of `updateRelationshipsFromEvents` on the impact shape. -/
def applyImpact (rel : Relationship) : ImpactValue → Relationship
  | .structured s => applyStructuredImpact rel s
  | .legacy s => applyLegacyImpact rel s

/-- A sequence of impacts applied in order. -/
def applyImpacts (rel : Relationship) (impacts : List ImpactValue) : Relationship :=
  impacts.foldl applyImpact rel

/-! ## Extraction parsing (`parseExtractionResult` in `extraction/parser.js`)

`safeParseJSON` lives in `utils.js` (not among the sources here), so the
parse outcome is passed in abstractly; everything from the null check on is
translated from the source.  `generateId` and `Date.now()` are opaque
external suppliers, passed as the `genId` and `now` arguments.  The source
messages are represented by their id list (`messages.map(m => m.id)`). -/

/-- An event object as it comes out of the LLM's JSON: each field is `some`
exactly when the JS object carries it (`Option` models `undefined`; a JS
empty array is truthy, so `some []` and `none` behave differently under
`||`, which `Option.or` mirrors).  Payload fields that the modelled
components never read (summary, promise, goal, skill) are not carried. -/
structure RawEvent where
  event_type : Option String := none
  characters_involved : Option (List String) := none
  witnesses : Option (List String) := none
  location : Option String := none
  is_secret : Bool := false
  known_by : Option (List String) := none
  importance : Option Int := none
  emotional_tone : Option (List String) := none
  emotional_valence : Option Int := none
  emotional_impact : Option (List (String × String)) := none
  relationship_impact : Option (List (String × ImpactValue)) := none
  deriving DecidableEq, Repr

/-- A memory record as produced by `parseExtractionResult`'s enrichment. -/
structure ParsedMemory where
  id : String
  event_type : Option String
  message_ids : List Int
  sequence : Int
  created_at : Int
  batch_id : Option String
  characters_involved : List String
  witnesses : List String
  location : Option String
  is_secret : Bool
  known_by : Option (List String)
  importance : Int
  emotional_tone : List String
  emotional_valence : Int
  emotional_impact : List (String × String)
  relationship_impact : List (String × ImpactValue)
  pinned : Bool
  deriving DecidableEq, Repr

/-- Modelled from the spec: the outcome of `safeParseJSON` (`utils.js`, not
among the sources) — "Output is expected JSON: either a single event object
or an array; unparseable output yields zero events without throwing."
`failed` stands for the `null` result on unparseable input. -/
inductive ExtractionParse where
  | failed
  | single (e : RawEvent)
  | array (es : List RawEvent)

/-- `Math.min(...messageIds)` for a nonempty id list.  (On an empty array
JavaScript yields `Infinity`, which has no integer counterpart; theorems
about sequences are stated through this function, which agrees with the
source whenever at least one message is present.) -/
def minInt : List Int → Int
  | [] => 0
  | x :: xs => xs.foldl min x

/-- `Math.min(5, Math.max(1, event.importance || 3))`: a missing or falsy
(zero) importance defaults to 3, then the value is clamped to `[1, 5]`. -/
def importanceOf (imp : Option Int) : Int :=
  let v := match imp with
    | none => 3
    | some i => if i = 0 then 3 else i
  min 5 (max 1 v)

/-- The per-event enrichment `parseExtractionResult` maps over the parsed
events (source lines 70–100). -/
def enrichEvent (genId : Nat → String) (ids : List Int) (now : Int)
    (batchId : Option String) (e : RawEvent) (index : Nat) : ParsedMemory where
  id := genId index
  event_type := e.event_type
  message_ids := ids
  sequence := minInt ids * 1000 + index
  created_at := now
  batch_id := batchId
  characters_involved := e.characters_involved.getD []
  witnesses := (e.witnesses.or e.characters_involved).getD []
  location := e.location
  is_secret := e.is_secret
  known_by :=
    if e.is_secret then some (((e.known_by.or e.witnesses).or e.characters_involved).getD [])
    else none
  importance := importanceOf e.importance
  emotional_tone := e.emotional_tone.getD []
  emotional_valence := match e.emotional_valence with
    | some v => min 1 (max (-1) v)
    | none => 0
  emotional_impact := e.emotional_impact.getD []
  relationship_impact := e.relationship_impact.getD []
  pinned := false

/-- `events.map((event, index) => ...)` with explicit index threading. -/
def enrichAll (genId : Nat → String) (ids : List Int) (now : Int)
    (batchId : Option String) : List RawEvent → Nat → List ParsedMemory
  | [], _ => []
  | e :: rest, i =>
    enrichEvent genId ids now batchId e i :: enrichAll genId ids now batchId rest (i + 1)

/-- `parseExtractionResult(jsonString, messages, ..., batchId)`: a failed
parse yields no events; otherwise a single object is wrapped into a
one-element array and every event is enriched with metadata. -/
def parseExtractionResult (parsed : ExtractionParse) (ids : List Int)
    (now : Int) (batchId : Option String) (genId : Nat → String) : List ParsedMemory :=
  match parsed with
  | .failed => []
  | .single e => enrichAll genId ids now batchId [e] 0
  | .array es => enrichAll genId ids now batchId es 0

/-- A dimension value within its bounds. -/
def dimInRange (v : Int) : Prop := 0 ≤ v ∧ v ≤ 10

/-- All seven relationship dimensions within `[0, 10]`. -/
def relInRange (rel : Relationship) : Prop :=
  dimInRange rel.trust_level ∧ dimInRange rel.tension_level ∧
    dimInRange rel.respect_level ∧ dimInRange rel.attraction_level ∧
    dimInRange rel.fear_level ∧ dimInRange rel.loyalty_level ∧
    dimInRange rel.familiarity_level

instance (v : Int) : Decidable (dimInRange v) := by
  unfold dimInRange; infer_instance

instance (rel : Relationship) : Decidable (relInRange rel) := by
  unfold relInRange; infer_instance

/-! ## POV knowledge filter (`filterMemoriesByKnowledge` in `systems/secrets.js`)

The POV character is `Option String`; `none` models the JavaScript `null`
(the source's `!characterName` guard also fires on the empty string, which
is likewise falsy, but the claims are about `null`). -/

/-- `filterMemoriesByKnowledge(memories, characterName)`: with no POV
character the list is returned unfiltered; otherwise non-secret memories
always pass and a secret memory passes only when the POV character is in
its `known_by` list (`memory.known_by?.includes(...)` is `undefined`, hence
falsy, when `known_by` is null). -/
def filterMemoriesByKnowledge (memories : List ParsedMemory)
    (characterName : Option String) : List ParsedMemory :=
  match characterName with
  | none => memories
  | some c =>
    memories.filter fun memory =>
      if !memory.is_secret then true
      else match memory.known_by with
        | none => false
        | some l => l.contains c

/-- A secret memory known only to Alice (the spec's scenario input). -/
def aliceSecretMemory : ParsedMemory where
  id := "mem_1"
  event_type := some "revelation"
  message_ids := [1]
  sequence := 1000
  created_at := 0
  batch_id := none
  characters_involved := ["Alice"]
  witnesses := ["Alice"]
  location := none
  is_secret := true
  known_by := some ["Alice"]
  importance := 3
  emotional_tone := []
  emotional_valence := 0
  emotional_impact := []
  relationship_impact := []
  pinned := false

/-! ## Character states (`updateCharacterStatesFromEvents` in `extraction/parser.js`)

The characters object (`data[CHARACTERS_KEY]`) is modelled as a function
from names to optional states; `Date.now()` is the `now` argument.  The
events consumed here are the enriched outputs of `parseExtractionResult`,
whose `emotional_tone`/`emotional_valence`/`witnesses` fields are always
present (so the source's `|| []` / `|| 0` defensive defaults are
identities). -/

/-- The `{min, max}` message range attached to a history entry. -/
structure MsgRange where
  min : Int
  max : Int
  deriving DecidableEq, Repr

/-- One entry of a character's `emotion_history`. -/
structure HistoryEntry where
  emotion : String
  timestamp : Int
  event_id : String
  message_range : Option MsgRange
  event_type : Option String
  emotional_tone : List String
  valence : Int
  deriving DecidableEq, Repr

/-- A `CharacterState` record; `last_updated` and `emotion_from_messages`
are absent (`none`) on a freshly created state. -/
structure CharacterState where
  name : String
  current_emotion : String
  emotion_intensity : Int
  known_events : List String
  emotion_history : List HistoryEntry
  last_updated : Option Int
  emotion_from_messages : Option MsgRange
  deriving DecidableEq, Repr

/-- `MAX_EMOTION_HISTORY` from `extraction/parser.js`. -/
def MAX_EMOTION_HISTORY : Nat := 50

/-- The characters store, keyed by character name. -/
def Characters : Type := String → Option CharacterState

/-- The state created lazily on first mention of a character. -/
def freshCharacter (name : String) : CharacterState where
  name := name
  current_emotion := "neutral"
  emotion_intensity := 5
  known_events := []
  emotion_history := []
  last_updated := none
  emotion_from_messages := none

/-- `Math.max(...ids)` for a nonempty id list (cf. `minInt`). -/
def maxInt : List Int → Int
  | [] => 0
  | x :: xs => xs.foldl max x

/-- The event's message range: `{min, max}` when it references messages,
null otherwise. -/
def messageRangeOf (e : ParsedMemory) : Option MsgRange :=
  if e.message_ids.isEmpty then none
  else some { min := minInt e.message_ids, max := maxInt e.message_ids }

/-- The history entry appended for one `(character, emotion)` pair. -/
def historyEntryOf (now : Int) (e : ParsedMemory) (emotion : String) : HistoryEntry where
  emotion := emotion
  timestamp := now
  event_id := e.id
  message_range := messageRangeOf e
  event_type := e.event_type
  emotional_tone := e.emotional_tone
  valence := e.emotional_valence

/-- `emotion_history.slice(-MAX_EMOTION_HISTORY)` applied when the pushed
history exceeds the maximum. -/
def trimHistory (hist : List HistoryEntry) : List HistoryEntry :=
  if hist.length > MAX_EMOTION_HISTORY then hist.drop (hist.length - MAX_EMOTION_HISTORY)
  else hist

/-- Store one character's state (JS object property write). -/
def setChar (chars : Characters) (n : String) (cs : CharacterState) : Characters :=
  fun k => if k = n then some cs else chars k

/-- Processing of a single `(character, emotion)` pair of
`event.emotional_impact`: lazily create the state, append a history entry,
trim to the most recent `MAX_EMOTION_HISTORY` entries, set the current
emotion. -/
def emotionStep (now : Int) (ev : ParsedMemory) (chars : Characters) :
    String × String → Characters
  | (charName, emotion) =>
    let charState := (chars charName).getD (freshCharacter charName)
    let entry := historyEntryOf now ev emotion
    let hist := trimHistory (charState.emotion_history ++ [entry])
    let mr := messageRangeOf ev
    setChar chars charName
      { charState with
          emotion_history := hist
          current_emotion := emotion
          last_updated := some now
          emotion_from_messages := if mr.isSome then mr else charState.emotion_from_messages }

/-- Processing of one witness: lazily create the state and add the event id
to `known_events` without duplicates. -/
def witnessStep (ev : ParsedMemory) (chars : Characters) (w : String) : Characters :=
  let charState := (chars w).getD (freshCharacter w)
  let charState :=
    if charState.known_events.contains ev.id then charState
    else { charState with known_events := charState.known_events ++ [ev.id] }
  setChar chars w charState

/-- The per-event body of `updateCharacterStatesFromEvents`. -/
def processEventForCharacters (now : Int) (chars : Characters) (ev : ParsedMemory) :
    Characters :=
  let chars := ev.emotional_impact.foldl (emotionStep now ev) chars
  ev.witnesses.foldl (witnessStep ev) chars

/-- `updateCharacterStatesFromEvents(events, data)`. -/
def updateCharacterStatesFromEvents (events : List ParsedMemory) (now : Int)
    (chars : Characters) : Characters :=
  events.foldl (processEventForCharacters now) chars

/-- Every stored character's emotion history is within the bound. -/
def histBound (chars : Characters) : Prop :=
  ∀ n cs, chars n = some cs → cs.emotion_history.length ≤ MAX_EMOTION_HISTORY

/-- The emotion history currently stored for a character (empty if the
character does not exist yet, matching the lazily created state). -/
def histOf (chars : Characters) (c : String) : List HistoryEntry :=
  match chars c with
  | some cs => cs.emotion_history
  | none => []

/-! ## Auto-hide (`auto-hide.js`)

A chat message is modelled by the three fields the auto-hide code reads or
writes: the `is_system` visibility flag, and the `is_user`/`name` fields
whose *presence* (`!== undefined`) distinguishes auto-hidden regular
messages from true system messages.  The set of already-extracted message
indices (`getExtractedMessageIds`, computed in `extraction/scheduler.js`
from the vault) is passed in as data. -/

/-- A chat message, reduced to the fields auto-hide touches. -/
structure Message where
  is_system : Bool
  is_user : Option Bool
  name : Option String
  deriving DecidableEq, Repr

/-- The settings fields auto-hide reads. -/
structure AutoHideSettings where
  autoHideEnabled : Bool
  autoHideThreshold : Nat
  deriving DecidableEq, Repr

/-- `settings.autoHideThreshold || 50` (a zero threshold is falsy). -/
def effectiveThreshold (s : AutoHideSettings) : Nat :=
  if s.autoHideThreshold = 0 then 50 else s.autoHideThreshold

/-- `chat.map((m, idx) => ({...m, idx})).filter(m => !m.is_system)`:
the visible messages together with their original chat indices. -/
def visibleMessages (chat : List Message) : List (Nat × Message) :=
  chat.enum.filter fun p => !p.2.is_system

/-- Number of visible (non-hidden) messages of a chat. -/
def countVisible (chat : List Message) : Nat :=
  chat.countP fun m => !m.is_system

/-- The hide loop of `autoHideOldMessages`: walk the chat with its indices
and set `is_system` on every message whose index is targeted for hiding
*and* has already been extracted into a memory. -/
def applyHide (extracted targets : List Nat) : List Message → Nat → List Message
  | [], _ => []
  | m :: rest, i =>
    (if targets.contains i && extracted.contains i then { m with is_system := true }
     else m) :: applyHide extracted targets rest (i + 1)

/-- The chat indices `autoHideOldMessages` targets for hiding: the oldest
`floor((visibleCount - threshold) / 2) * 2` visible messages, or nothing
when disabled, below threshold, or when no full pair is due. -/
def autoHideTargets (chat : List Message) (s : AutoHideSettings) : List Nat :=
  if !s.autoHideEnabled then []
  else
    let threshold := effectiveThreshold s
    let visible := visibleMessages chat
    if visible.length ≤ threshold then []
    else
      let toHideCount := visible.length - threshold
      let pairsToHide := toHideCount / 2
      let messagesToHide := pairsToHide * 2
      if messagesToHide = 0 then []
      else (visible.take messagesToHide).map Prod.fst

/-- `autoHideOldMessages()` as a function of the chat, the settings and the
extracted-index set. -/
def autoHideOldMessages (chat : List Message) (s : AutoHideSettings)
    (extracted : List Nat) : List Message :=
  if !s.autoHideEnabled then chat
  else
    let threshold := effectiveThreshold s
    let visible := visibleMessages chat
    if visible.length ≤ threshold then chat
    else
      let toHideCount := visible.length - threshold
      let pairsToHide := toHideCount / 2
      let messagesToHide := pairsToHide * 2
      if messagesToHide = 0 then chat
      else applyHide extracted ((visible.take messagesToHide).map Prod.fst) chat 0

/-- `unhideMessagesForBranch()`: clear the `is_system` flag of every hidden
message that was auto-hidden (it still carries `is_user`/`name` fields),
leaving true system messages untouched. -/
def unhideMessagesForBranch (chat : List Message) : List Message :=
  if chat.length = 0 then chat
  else
    chat.map fun m =>
      if m.is_system = true then
        if m.is_user.isSome || m.name.isSome then { m with is_system := false } else m
      else m

/-! ## Locations (`systems/locations.js`)

The locations object (`data[LOCATIONS_KEY]`) is an association list keyed
by the normalized name, preserving JavaScript object insertion order
(`Object.values` iterates in that order).  The host glue (`getOpenVaultData`
null check, `saveChatConditional`) is not modelled.  `linkMemoryToLocation`
returns `none` exactly where the JavaScript would throw a `TypeError`:
when the location was found only through an alias, so no entry exists at
the normalized key it then dereferences. -/

/-- ASCII whitespace, for the JS `trim`/`\s` character class (the full JS
class has further rare members none of which is relevant here). -/
def isWs (c : Char) : Bool :=
  c = ' ' || c = '\t' || c = '\n' || c = '\r'

/-- A character kept by the `[^a-z0-9\s]` removal (input already
lower-cased). -/
def isKept (c : Char) : Bool :=
  ('a' ≤ c && c ≤ 'z') || ('0' ≤ c && c ≤ '9') || isWs c

/-- `String.prototype.trim` on exploded strings. -/
def trimChars (l : List Char) : List Char :=
  ((l.dropWhile isWs).reverse.dropWhile isWs).reverse

/-- `replace(/\s+/g, '_')`: each maximal whitespace run becomes one
underscore (the flag records whether the previous character was
whitespace). -/
def collapseWs : List Char → Bool → List Char
  | [], _ => []
  | c :: rest, prevWs =>
    if isWs c then
      if prevWs then collapseWs rest true else '_' :: collapseWs rest true
    else c :: collapseWs rest false

/-- `String.prototype.trim` as a string function. -/
def jsTrim (s : String) : String :=
  ⟨trimChars s.data⟩

/-- `normalizeLocationName(name)`:
`name.toLowerCase().trim().replace(/[^a-z0-9\s]/g, '').replace(/\s+/g, '_')`. -/
def normalizeLocationName (name : String) : String :=
  ⟨collapseWs ((trimChars (name.data.map Char.toLower)).filter isKept) false⟩

/-- A location record. -/
structure Location where
  id : String
  name : String
  aliases : List String
  description : String
  first_visit : Int
  last_visit : Int
  visit_count : Int
  memory_ids : List String
  parent_location : Option String
  tags : List String
  deriving DecidableEq, Repr

/-- The locations store: insertion-ordered entries keyed by normalized
name. -/
abbrev Locations := List (String × Location)

/-- Property read `data[LOCATIONS_KEY][key]`. -/
def lookupLoc (locs : Locations) (key : String) : Option Location :=
  (locs.find? fun p => p.1 == key).map Prod.snd

/-- `getLocation(name)`: direct match on the normalized key first, then a
scan of all locations for a normalized-alias match. -/
def getLocation (locs : Locations) (name : String) : Option Location :=
  let normalized := normalizeLocationName name
  match lookupLoc locs normalized with
  | some loc => some loc
  | none =>
    (locs.find? fun p =>
      p.2.aliases.any fun a => normalizeLocationName a == normalized).map Prod.snd

/-- Property write `data[LOCATIONS_KEY][key] = loc` for an existing key. -/
def setLoc (locs : Locations) (key : String) (loc : Location) : Locations :=
  locs.map fun p => if p.1 == key then (p.1, loc) else p

/-- `upsertLocation(name, options)` as called from `linkMemoryToLocation`
(no options passed, so the optional description/tags/alias updates are
identities): bump an existing location's visit data, or append a fresh
location record at the normalized key. -/
def upsertLocation (locs : Locations) (name : String) (now : Int) : Locations :=
  let normalized := normalizeLocationName name
  match lookupLoc locs normalized with
  | some existing =>
    setLoc locs normalized
      { existing with last_visit := now, visit_count := existing.visit_count + 1 }
  | none =>
    locs ++ [(normalized,
      { id := normalized
        name := jsTrim name
        aliases := []
        description := ""
        first_visit := now
        last_visit := now
        visit_count := 1
        memory_ids := []
        parent_location := none
        tags := [] })]

/-- `linkMemoryToLocation(memoryId, locationName)`: ensure the location
exists, then push the memory id onto its `memory_ids` unless already
linked.  `none` models the `TypeError` thrown when the normalized key is
absent (alias-only match). -/
def linkMemoryToLocation (memoryId locationName : String) (locs : Locations)
    (now : Int) : Option Locations :=
  let locs1 := match getLocation locs locationName with
    | some _ => locs
    | none => upsertLocation locs locationName now
  let normalized := normalizeLocationName locationName
  match lookupLoc locs1 normalized with
  | none => none
  | some loc =>
    if loc.memory_ids.contains memoryId then some locs1
    else some (setLoc locs1 normalized { loc with memory_ids := loc.memory_ids ++ [memoryId] })

/-- A plain visible user message, for the C6 witness chat. -/
def plainUserMessage : Message where
  is_system := false
  is_user := some true
  name := some "User"

/-- A message hidden by auto-hide (it keeps its `is_user`/`name` fields). -/
def hiddenUserMessage : Message where
  is_system := true
  is_user := some true
  name := some "User"

/-- The store produced by linking memory `"m1"` to the fresh location
`"Home"` in an empty store at time 0. -/
def homeLinked : Locations :=
  [("home",
    { id := "home"
      name := "Home"
      aliases := []
      description := ""
      first_visit := 0
      last_visit := 0
      visit_count := 1
      memory_ids := ["m1"]
      parent_location := none
      tags := [] })]


theorem relInRange_applyStructuredImpact (rel : Relationship) (impact : StructuredImpact)
    (h : relInRange rel) : relInRange (applyStructuredImpact rel impact) := by
  obtain ⟨h1, h2, h3, h4, h5, h6, h7⟩ := h
  unfold applyStructuredImpact
  simp only [dimInRange] at *
  rcases impact with ⟨t, te, rsp, at_, f, lo, fam⟩
  dsimp only
  cases t <;> cases te <;> cases rsp <;> cases at_ <;> cases f <;> cases lo <;> cases fam <;>
    simp only [clamp, relInRange, dimInRange] <;>
    refine ⟨?_, ?_, ?_, ?_, ?_, ?_, ?_⟩ <;> dsimp only <;> omega

theorem relInRange_legacyTrust (inc : String → Bool) (rel : Relationship)
    (h : relInRange rel) : relInRange (legacyTrust inc rel) := by
  obtain ⟨h1, h2, h3, h4, h5, h6, h7⟩ := h
  unfold legacyTrust
  split <;> [skip; split] <;>
    simp only [relInRange, dimInRange] at * <;>
    refine ⟨?_, ?_, ?_, ?_, ?_, ?_, ?_⟩ <;> dsimp only <;> omega

theorem relInRange_legacyTension (inc : String → Bool) (rel : Relationship)
    (h : relInRange rel) : relInRange (legacyTension inc rel) := by
  obtain ⟨h1, h2, h3, h4, h5, h6, h7⟩ := h
  unfold legacyTension
  split <;> [skip; split] <;>
    simp only [relInRange, dimInRange] at * <;>
    refine ⟨?_, ?_, ?_, ?_, ?_, ?_, ?_⟩ <;> dsimp only <;> omega

theorem relInRange_legacyRespect (inc : String → Bool) (rel : Relationship)
    (h : relInRange rel) : relInRange (legacyRespect inc rel) := by
  obtain ⟨h1, h2, h3, h4, h5, h6, h7⟩ := h
  unfold legacyRespect
  split <;> [skip; split] <;>
    simp only [relInRange, dimInRange] at * <;>
    refine ⟨?_, ?_, ?_, ?_, ?_, ?_, ?_⟩ <;> dsimp only <;> omega

theorem relInRange_legacyAttraction (inc : String → Bool) (rel : Relationship)
    (h : relInRange rel) : relInRange (legacyAttraction inc rel) := by
  obtain ⟨h1, h2, h3, h4, h5, h6, h7⟩ := h
  unfold legacyAttraction
  split <;>
    simp only [relInRange, dimInRange] at * <;>
    refine ⟨?_, ?_, ?_, ?_, ?_, ?_, ?_⟩ <;> dsimp only <;> omega

theorem relInRange_legacyFear (inc : String → Bool) (rel : Relationship)
    (h : relInRange rel) : relInRange (legacyFear inc rel) := by
  obtain ⟨h1, h2, h3, h4, h5, h6, h7⟩ := h
  unfold legacyFear
  split <;> [skip; split] <;>
    simp only [relInRange, dimInRange] at * <;>
    refine ⟨?_, ?_, ?_, ?_, ?_, ?_, ?_⟩ <;> dsimp only <;> omega

theorem relInRange_legacyLoyalty (inc : String → Bool) (rel : Relationship)
    (h : relInRange rel) : relInRange (legacyLoyalty inc rel) := by
  obtain ⟨h1, h2, h3, h4, h5, h6, h7⟩ := h
  unfold legacyLoyalty
  split <;> [skip; split] <;>
    simp only [relInRange, dimInRange] at * <;>
    refine ⟨?_, ?_, ?_, ?_, ?_, ?_, ?_⟩ <;> dsimp only <;> omega

theorem relInRange_legacyBody (inc : String → Bool) (rel : Relationship)
    (h : relInRange rel) : relInRange (legacyBody inc rel) := by
  unfold legacyBody
  have h1 := relInRange_legacyTrust inc rel h
  have h2 := relInRange_legacyTension inc _ h1
  have h3 := relInRange_legacyRespect inc _ h2
  have h4 := relInRange_legacyAttraction inc _ h3
  have h5 := relInRange_legacyFear inc _ h4
  have h6 := relInRange_legacyLoyalty inc _ h5
  obtain ⟨g1, g2, g3, g4, g5, g6, g7⟩ := h6
  simp only [relInRange, dimInRange] at *
  refine ⟨?_, ?_, ?_, ?_, ?_, ?_, ?_⟩ <;> dsimp only <;> omega

theorem relInRange_applyLegacyImpact (rel : Relationship) (s : String)
    (h : relInRange rel) : relInRange (applyLegacyImpact rel s) :=
  relInRange_legacyBody _ rel h

theorem relInRange_applyImpact (rel : Relationship) (i : ImpactValue)
    (h : relInRange rel) : relInRange (applyImpact rel i) := by
  cases i with
  | structured s => exact relInRange_applyStructuredImpact rel s h
  | legacy s => exact relInRange_applyLegacyImpact rel s h

/-- **C1.** For every relationship and every sequence of applied impacts
(structured or legacy), each of the seven dimensions `trust_level`,
`tension_level`, `respect_level`, `attraction_level`, `fear_level`,
`loyalty_level`, `familiarity_level` stays within `[0, 10]` after every
update: any relationship whose dimensions are in range keeps all seven
dimensions in range after folding in an arbitrary impact sequence
(so in particular after every prefix of whatever impacts arrive). -/
theorem claim_C1_dimensions_stay_in_range (rel : Relationship)
    (impacts : List ImpactValue) (h : relInRange rel) :
    relInRange (applyImpacts rel impacts) := by
  induction impacts generalizing rel with
  | nil => exact h
  | cons i rest ih => exact ih _ (relInRange_applyImpact rel i h)

/-- Concrete instance of C1: the freshly created relationship stays in range
after a legacy impact followed by an extreme structured impact. -/
theorem claim_C1_dimensions_stay_in_range_witness :
    relInRange (applyImpacts (defaultRelationship "Alice" "Bob")
      [ImpactValue.legacy "betrayal and abandonment",
       ImpactValue.structured { trust := some (-100), familiarity := some 100 }]) :=
  claim_C1_dimensions_stay_in_range _ _ (by decide)

theorem familiarity_legacyTrust (inc : String → Bool) (rel : Relationship) :
    (legacyTrust inc rel).familiarity_level = rel.familiarity_level := by
  unfold legacyTrust; split
  · rfl
  · split <;> rfl

theorem familiarity_legacyTension (inc : String → Bool) (rel : Relationship) :
    (legacyTension inc rel).familiarity_level = rel.familiarity_level := by
  unfold legacyTension; split
  · rfl
  · split <;> rfl

theorem familiarity_legacyRespect (inc : String → Bool) (rel : Relationship) :
    (legacyRespect inc rel).familiarity_level = rel.familiarity_level := by
  unfold legacyRespect; split
  · rfl
  · split <;> rfl

theorem familiarity_legacyAttraction (inc : String → Bool) (rel : Relationship) :
    (legacyAttraction inc rel).familiarity_level = rel.familiarity_level := by
  unfold legacyAttraction; split <;> rfl

theorem familiarity_legacyFear (inc : String → Bool) (rel : Relationship) :
    (legacyFear inc rel).familiarity_level = rel.familiarity_level := by
  unfold legacyFear; split
  · rfl
  · split <;> rfl

theorem familiarity_legacyLoyalty (inc : String → Bool) (rel : Relationship) :
    (legacyLoyalty inc rel).familiarity_level = rel.familiarity_level := by
  unfold legacyLoyalty; split
  · rfl
  · split <;> rfl

theorem familiarity_legacyBody (inc : String → Bool) (rel : Relationship) :
    (legacyBody inc rel).familiarity_level = min 10 (rel.familiarity_level + 1) := by
  unfold legacyBody
  dsimp only
  rw [familiarity_legacyLoyalty, familiarity_legacyFear, familiarity_legacyAttraction,
    familiarity_legacyRespect, familiarity_legacyTension, familiarity_legacyTrust]

/-- **C4.** Every processed legacy (free-text) relationship impact increments
`familiarity_level` by 1 (capped at 10), regardless of the string's content;
a structured impact leaves `familiarity_level` unchanged when it carries no
numeric `familiarity` field; and applying the legacy impact string
`"Trust deepens between them"` to a freshly created relationship raises
`trust_level` from 5 to 6 and `familiarity_level` from 1 to 2 in the
same call. -/
theorem claim_C4_familiarity_increment_rules :
    (∀ (rel : Relationship) (s : String),
      (applyLegacyImpact rel s).familiarity_level = min 10 (rel.familiarity_level + 1)) ∧
    (∀ (rel : Relationship) (impact : StructuredImpact), impact.familiarity = none →
      (applyStructuredImpact rel impact).familiarity_level = rel.familiarity_level) ∧
    ((defaultRelationship "Alice" "Bob").trust_level = 5 ∧
      (defaultRelationship "Alice" "Bob").familiarity_level = 1 ∧
      (applyLegacyImpact (defaultRelationship "Alice" "Bob")
        "Trust deepens between them").trust_level = 6 ∧
      (applyLegacyImpact (defaultRelationship "Alice" "Bob")
        "Trust deepens between them").familiarity_level = 2) := by
  refine ⟨fun rel s => familiarity_legacyBody _ rel, fun rel impact hfam => ?_, by decide⟩
  rcases impact with ⟨t, te, rsp, at_, f, lo, fam⟩
  simp only at hfam
  subst hfam
  unfold applyStructuredImpact
  cases t <;> cases te <;> cases rsp <;> cases at_ <;> cases f <;> cases lo <;> rfl

/-- Concrete instance of C4's structured-impact part: a structured impact
with only a trust delta leaves familiarity untouched. -/
theorem claim_C4_familiarity_increment_rules_witness :
    (applyStructuredImpact (defaultRelationship "Alice" "Bob")
      { trust := some 2 }).familiarity_level
      = (defaultRelationship "Alice" "Bob").familiarity_level :=
  claim_C4_familiarity_increment_rules.2.1 _ { trust := some 2 } rfl

theorem length_enrichAll (genId : Nat → String) (ids : List Int) (now : Int)
    (batchId : Option String) (es : List RawEvent) (n : Nat) :
    (enrichAll genId ids now batchId es n).length = es.length := by
  induction es generalizing n with
  | nil => rfl
  | cons e rest ih => simp [enrichAll, ih]

theorem getElem?_enrichAll (genId : Nat → String) (ids : List Int) (now : Int)
    (batchId : Option String) (es : List RawEvent) (n i : Nat) :
    (enrichAll genId ids now batchId es n)[i]?
      = es[i]?.map (fun e => enrichEvent genId ids now batchId e (n + i)) := by
  induction es generalizing n i with
  | nil => simp [enrichAll]
  | cons e rest ih =>
    cases i with
    | zero => simp [enrichAll]
    | succ j =>
      have := ih (n + 1) j
      simp only [enrichAll, List.getElem?_cons_succ, this]
      have harith : n + 1 + j = n + (j + 1) := by omega
      rw [harith]

theorem mem_enrichAll (genId : Nat → String) (ids : List Int) (now : Int)
    (batchId : Option String) (es : List RawEvent) (n : Nat) (m : ParsedMemory)
    (hm : m ∈ enrichAll genId ids now batchId es n) :
    ∃ e i, m = enrichEvent genId ids now batchId e i := by
  induction es generalizing n with
  | nil => exact absurd hm (by simp [enrichAll])
  | cons e rest ih =>
    rcases List.mem_cons.mp hm with h | h
    · exact ⟨e, n, h⟩
    · exact ih (n + 1) h

theorem importanceOf_bounds (imp : Option Int) :
    1 ≤ importanceOf imp ∧ importanceOf imp ≤ 5 := by
  unfold importanceOf
  cases imp with
  | none => dsimp only; omega
  | some i => dsimp only; split <;> omega

/-- **C2.** For every input event, the memory produced by
`parseExtractionResult` has importance in `[1, 5]`; a numeric importance is
clamped into that range, and a missing or falsy (zero) importance defaults
to 3. -/
theorem claim_C2_importance_clamp_law :
    (∀ (parsed : ExtractionParse) (ids : List Int) (now : Int) (batchId : Option String)
      (genId : Nat → String) (m : ParsedMemory),
      m ∈ parseExtractionResult parsed ids now batchId genId →
        1 ≤ m.importance ∧ m.importance ≤ 5) ∧
    (∀ (genId : Nat → String) (ids : List Int) (now : Int) (batchId : Option String)
      (e : RawEvent) (i : Nat),
      ((e.importance = none ∨ e.importance = some 0) →
        (enrichEvent genId ids now batchId e i).importance = 3) ∧
      (∀ v : Int, v ≠ 0 → e.importance = some v →
        (enrichEvent genId ids now batchId e i).importance = min 5 (max 1 v))) := by
  constructor
  · intro parsed ids now batchId genId m hm
    have : ∃ e i, m = enrichEvent genId ids now batchId e i := by
      cases parsed with
      | failed => exact absurd hm (by simp [parseExtractionResult])
      | single e => exact mem_enrichAll genId ids now batchId [e] 0 m hm
      | array es => exact mem_enrichAll genId ids now batchId es 0 m hm
    obtain ⟨e, i, rfl⟩ := this
    exact importanceOf_bounds e.importance
  · intro genId ids now batchId e i
    constructor
    · rintro (h | h) <;> simp [enrichEvent, importanceOf, h]
    · intro v hv h
      simp [enrichEvent, importanceOf, h, hv]

/-- Concrete instance of C2: an event with importance 99 is clamped to 5,
one with importance 0 (falsy) defaults to 3. -/
theorem claim_C2_importance_clamp_law_witness :
    (enrichEvent (fun _ => "m") [1] 0 none { importance := some 0 } 0).importance = 3 ∧
    (enrichEvent (fun _ => "m") [1] 0 none { importance := some 99 } 0).importance
      = min 5 (max 1 99) :=
  ⟨(claim_C2_importance_clamp_law.2 (fun _ => "m") [1] 0 none { importance := some 0 } 0).1
      (Or.inr rfl),
    (claim_C2_importance_clamp_law.2 (fun _ => "m") [1] 0 none
      { importance := some 99 } 0).2 99 (by decide) rfl⟩

/-- **C5.** Every event in an extraction batch is assigned
`sequence = min(messageIds) * 1000 + indexWithinBatch`, and two events
(possibly from different batches) with in-batch indices below 1000 can only
share a sequence value when their batches have the same minimum message id
and the events sit at the same index — so within one batch, or across
batches starting at different messages, sequences never collide as long as
fewer than 1000 events are extracted per batch starting message. -/
theorem claim_C5_sequence_assignment :
    (∀ (es : List RawEvent) (ids : List Int) (now : Int) (batchId : Option String)
      (genId : Nat → String) (i : Nat) (m : ParsedMemory),
      (parseExtractionResult (.array es) ids now batchId genId)[i]? = some m →
      m.sequence = minInt ids * 1000 + i) ∧
    (∀ (es₁ es₂ : List RawEvent) (ids₁ ids₂ : List Int) (now₁ now₂ : Int)
      (batchId₁ batchId₂ : Option String) (genId₁ genId₂ : Nat → String) (i₁ i₂ : Nat)
      (m₁ m₂ : ParsedMemory),
      (parseExtractionResult (.array es₁) ids₁ now₁ batchId₁ genId₁)[i₁]? = some m₁ →
      (parseExtractionResult (.array es₂) ids₂ now₂ batchId₂ genId₂)[i₂]? = some m₂ →
      i₁ < 1000 → i₂ < 1000 → m₁.sequence = m₂.sequence →
      minInt ids₁ = minInt ids₂ ∧ i₁ = i₂) := by
  have hseq : ∀ (es : List RawEvent) (ids : List Int) (now : Int) (batchId : Option String)
      (genId : Nat → String) (i : Nat) (m : ParsedMemory),
      (parseExtractionResult (.array es) ids now batchId genId)[i]? = some m →
      m.sequence = minInt ids * 1000 + i := by
    intro es ids now batchId genId i m hm
    rw [show (parseExtractionResult (.array es) ids now batchId genId)
        = enrichAll genId ids now batchId es 0 from rfl,
      getElem?_enrichAll] at hm
    cases hx : es[i]? with
    | none => rw [hx] at hm; simp at hm
    | some e =>
      rw [hx] at hm
      simp only [Option.map_some'] at hm
      cases hm
      simp [enrichEvent]
  refine ⟨hseq, ?_⟩
  intro es₁ es₂ ids₁ ids₂ now₁ now₂ b₁ b₂ g₁ g₂ i₁ i₂ m₁ m₂ hm₁ hm₂ hi₁ hi₂ heq
  rw [hseq es₁ ids₁ now₁ b₁ g₁ i₁ m₁ hm₁, hseq es₂ ids₂ now₂ b₂ g₂ i₂ m₂ hm₂] at heq
  constructor <;> omega

/-- Concrete instance of C5: the only event of a batch whose earliest source
message id is 2 gets sequence 2000. -/
theorem claim_C5_sequence_assignment_witness :
    (enrichEvent (fun _ => "m") [2] 5 none {} 0).sequence = minInt [2] * 1000 + 0 :=
  claim_C5_sequence_assignment.1 [{}] [2] 5 none (fun _ => "m") 0 _ rfl

/-- **C3.** `filterMemoriesByKnowledge` includes every non-secret memory,
includes a secret memory iff the POV character is in its `known_by` set,
and with a null POV character returns the whole list unfiltered.  In
particular a secret memory with `known_by = ["Alice"]` is excluded for POV
`"Bob"`, included for POV `"Alice"`, and included for POV `null`. -/
theorem claim_C3_pov_knowledge_filter :
    (∀ (memories : List ParsedMemory),
      filterMemoriesByKnowledge memories none = memories) ∧
    (∀ (memories : List ParsedMemory) (c : String) (m : ParsedMemory),
      m ∈ filterMemoriesByKnowledge memories (some c) ↔
        m ∈ memories ∧ (m.is_secret = false ∨ ∃ l, m.known_by = some l ∧ c ∈ l)) ∧
    (filterMemoriesByKnowledge [aliceSecretMemory] (some "Bob") = [] ∧
      filterMemoriesByKnowledge [aliceSecretMemory] (some "Alice") = [aliceSecretMemory] ∧
      filterMemoriesByKnowledge [aliceSecretMemory] none = [aliceSecretMemory]) := by
  refine ⟨fun memories => rfl, ?_, by decide⟩
  intro memories c m
  unfold filterMemoriesByKnowledge
  rw [List.mem_filter]
  constructor
  · rintro ⟨hmem, hp⟩
    refine ⟨hmem, ?_⟩
    cases hsec : m.is_secret with
    | false => exact Or.inl rfl
    | true =>
      rw [hsec] at hp
      cases hkb : m.known_by with
      | none => rw [hkb] at hp; simp at hp
      | some l =>
        rw [hkb] at hp
        simp only [Bool.not_true, Bool.false_eq_true, if_false] at hp
        exact Or.inr ⟨l, rfl, by simpa using hp⟩
  · rintro ⟨hmem, hset⟩
    refine ⟨hmem, ?_⟩
    rcases hset with hsec | ⟨l, hkb, hc⟩
    · simp [hsec]
    · rw [hkb]
      cases hsec : m.is_secret with
      | false => simp
      | true => simpa using hc

/-- Concrete instance of C3: Alice sees her own secret. -/
theorem claim_C3_pov_knowledge_filter_witness :
    aliceSecretMemory ∈ filterMemoriesByKnowledge [aliceSecretMemory] (some "Alice") :=
  (claim_C3_pov_knowledge_filter.2.1 [aliceSecretMemory] "Alice" aliceSecretMemory).mpr
    ⟨by simp, Or.inr ⟨["Alice"], rfl, by simp⟩⟩

/-- **C9.** A failed (unparseable) extraction parse yields the empty event
list — `parseExtractionResult` is a total function, so no exception can
escape it — while a parsed single object yields exactly one event and a
parsed array yields one event per array element. -/
theorem claim_C9_unparseable_yields_no_events :
    (∀ (ids : List Int) (now : Int) (batchId : Option String) (genId : Nat → String),
      parseExtractionResult .failed ids now batchId genId = []) ∧
    (∀ (e : RawEvent) (ids : List Int) (now : Int) (batchId : Option String)
      (genId : Nat → String),
      (parseExtractionResult (.single e) ids now batchId genId).length = 1) ∧
    (∀ (es : List RawEvent) (ids : List Int) (now : Int) (batchId : Option String)
      (genId : Nat → String),
      (parseExtractionResult (.array es) ids now batchId genId).length = es.length) :=
  ⟨fun _ _ _ _ => rfl,
    fun _ _ _ _ _ => rfl,
    fun es ids now batchId genId => length_enrichAll genId ids now batchId es 0⟩

theorem trimHistory_length (hist : List HistoryEntry) :
    (trimHistory hist).length = min hist.length MAX_EMOTION_HISTORY := by
  unfold trimHistory
  split <;> simp <;> omega

theorem trimHistory_suffix (hist : List HistoryEntry) :
    List.IsSuffix (trimHistory hist) hist := by
  unfold trimHistory
  split
  · exact ⟨hist.take (hist.length - MAX_EMOTION_HISTORY), List.take_append_drop _ _⟩
  · exact ⟨[], rfl⟩

theorem emotionStep_histBound (now : Int) (ev : ParsedMemory) (chars : Characters)
    (p : String × String) (h : histBound chars) : histBound (emotionStep now ev chars p) := by
  rcases p with ⟨charName, emotion⟩
  intro n cs hcs
  simp only [emotionStep, setChar] at hcs
  by_cases hn : n = charName
  · rw [if_pos hn] at hcs
    cases hcs
    dsimp only
    rw [trimHistory_length]
    omega
  · rw [if_neg hn] at hcs
    exact h n cs hcs

theorem witnessStep_histBound (ev : ParsedMemory) (chars : Characters) (w : String)
    (h : histBound chars) : histBound (witnessStep ev chars w) := by
  intro n cs hcs
  simp only [witnessStep, setChar] at hcs
  by_cases hn : n = w
  · rw [if_pos hn] at hcs
    cases hcs
    have hbase : ((chars w).getD (freshCharacter w)).emotion_history.length
        ≤ MAX_EMOTION_HISTORY := by
      cases hw : chars w with
      | some cs₀ => simpa [hw] using h w cs₀ hw
      | none => simp [hw, freshCharacter, MAX_EMOTION_HISTORY]
    split <;> exact hbase
  · rw [if_neg hn] at hcs
    exact h n cs hcs

theorem foldl_emotionStep_histBound (now : Int) (ev : ParsedMemory)
    (pairs : List (String × String)) (chars : Characters) (h : histBound chars) :
    histBound (pairs.foldl (emotionStep now ev) chars) := by
  induction pairs generalizing chars with
  | nil => exact h
  | cons p rest ih => exact ih _ (emotionStep_histBound now ev chars p h)

theorem foldl_witnessStep_histBound (ev : ParsedMemory) (ws : List String)
    (chars : Characters) (h : histBound chars) :
    histBound (ws.foldl (witnessStep ev) chars) := by
  induction ws generalizing chars with
  | nil => exact h
  | cons w rest ih => exact ih _ (witnessStep_histBound ev chars w h)

theorem processEventForCharacters_histBound (now : Int) (chars : Characters)
    (ev : ParsedMemory) (h : histBound chars) :
    histBound (processEventForCharacters now chars ev) :=
  foldl_witnessStep_histBound ev ev.witnesses _
    (foldl_emotionStep_histBound now ev ev.emotional_impact chars h)

/-- **C7.** For every character and every sequence of reduced events, the
character's `emotion_history` never exceeds `MAX_EMOTION_HISTORY = 50`
entries; eviction removes the oldest entries first (the new history is a
suffix of the old history with the new entry appended, of length
`min (old + 1) 50`); and after processing a `(character, emotion)` pair the
character's `current_emotion` equals that emotion. -/
theorem claim_C7_emotion_history_bound_and_eviction :
    (∀ (events : List ParsedMemory) (now : Int) (chars : Characters),
      histBound chars → histBound (updateCharacterStatesFromEvents events now chars)) ∧
    (∀ (now : Int) (ev : ParsedMemory) (chars : Characters) (c emotion : String),
      ∃ cs, (emotionStep now ev chars (c, emotion)) c = some cs ∧
        cs.current_emotion = emotion ∧
        cs.emotion_history.length
          = min ((histOf chars c).length + 1) MAX_EMOTION_HISTORY ∧
        List.IsSuffix cs.emotion_history
          (histOf chars c ++ [historyEntryOf now ev emotion])) := by
  constructor
  · intro events now chars h
    induction events generalizing chars with
    | nil => exact h
    | cons ev rest ih =>
      exact ih _ (processEventForCharacters_histBound now chars ev h)
  · intro now ev chars c emotion
    have hhist : ((chars c).getD (freshCharacter c)).emotion_history = histOf chars c := by
      unfold histOf
      cases chars c <;> rfl
    refine ⟨{ (chars c).getD (freshCharacter c) with
        emotion_history := trimHistory
          (((chars c).getD (freshCharacter c)).emotion_history
            ++ [historyEntryOf now ev emotion])
        current_emotion := emotion
        last_updated := some now
        emotion_from_messages :=
          if (messageRangeOf ev).isSome then messageRangeOf ev
          else ((chars c).getD (freshCharacter c)).emotion_from_messages },
      ?_, rfl, ?_, ?_⟩
    · simp only [emotionStep, setChar, if_true]
    · dsimp only
      rw [trimHistory_length, hhist]
      simp
    · dsimp only
      rw [hhist]
      exact trimHistory_suffix _

/-- Concrete instance of C7: starting from the empty store, the bound holds
after reducing a concrete event. -/
theorem claim_C7_emotion_history_bound_and_eviction_witness :
    histBound (updateCharacterStatesFromEvents [aliceSecretMemory] 3 (fun _ => none)) :=
  claim_C7_emotion_history_bound_and_eviction.1 [aliceSecretMemory] 3 (fun _ => none)
    (fun _ _ h => Option.noConfusion h)

theorem applyHide_nil_targets (ex : List Nat) (chat : List Message) (n : Nat) :
    applyHide ex [] chat n = chat := by
  induction chat generalizing n with
  | nil => rfl
  | cons m rest ih => simp [applyHide, ih]

theorem getElem?_applyHide (ex tg : List Nat) (chat : List Message) (n i : Nat) :
    (applyHide ex tg chat n)[i]?
      = chat[i]?.map fun m =>
          if tg.contains (n + i) && ex.contains (n + i) then { m with is_system := true }
          else m := by
  induction chat generalizing n i with
  | nil => simp [applyHide]
  | cons m rest ih =>
    cases i with
    | zero => simp [applyHide]
    | succ j =>
      have := ih (n + 1) j
      simp only [applyHide, List.getElem?_cons_succ, this]
      have harith : n + 1 + j = n + (j + 1) := by omega
      rw [harith]

theorem autoHide_eq_applyHide (chat : List Message) (s : AutoHideSettings)
    (ex : List Nat) :
    autoHideOldMessages chat s ex = applyHide ex (autoHideTargets chat s) chat 0 := by
  unfold autoHideOldMessages autoHideTargets
  by_cases h1 : s.autoHideEnabled
  · simp only [h1, Bool.not_true, Bool.false_eq_true, if_false]
    by_cases h2 : (visibleMessages chat).length ≤ effectiveThreshold s
    · simp [h2, applyHide_nil_targets]
    · simp only [h2, if_false]
      by_cases h3 : ((visibleMessages chat).length - effectiveThreshold s) / 2 * 2 = 0
      · simp [h3, applyHide_nil_targets]
      · simp [h3]
  · simp [h1, applyHide_nil_targets]

theorem countVisible_applyHide (ex tg : List Nat) (chat : List Message) (n : Nat) :
    countVisible (applyHide ex tg chat n)
        + (List.enumFrom n chat).countP
            (fun p => !p.2.is_system && (tg.contains p.1 && ex.contains p.1))
      = countVisible chat := by
  induction chat generalizing n with
  | nil => simp [applyHide, countVisible]
  | cons m rest ih =>
    have ihn := ih (n + 1)
    simp only [applyHide, countVisible, List.countP_cons, List.enumFrom_cons] at ihn ⊢
    by_cases hc : n ∈ tg ∧ n ∈ ex <;>
      cases hm : m.is_system <;>
      simp [hc, hm] at ihn ⊢ <;>
      omega

theorem nodup_fst_visibleMessages (chat : List Message) :
    ((visibleMessages chat).map Prod.fst).Nodup := by
  have hsub : ((visibleMessages chat).map Prod.fst).Sublist (chat.enum.map Prod.fst) :=
    List.Sublist.map Prod.fst (List.filter_sublist chat.enum)
  rw [List.enum_map_fst] at hsub
  exact hsub.nodup (List.nodup_range chat.length)

theorem countP_targets (chat : List Message) (mth : Nat) (ex : List Nat)
    (hex : ∀ p ∈ visibleMessages chat, ex.contains p.1 = true)
    (hm : mth ≤ (visibleMessages chat).length) :
    (visibleMessages chat).countP
        (fun p => (((visibleMessages chat).take mth).map Prod.fst).contains p.1
          && ex.contains p.1)
      = mth := by
  set vl := visibleMessages chat with hvl
  set tg := (vl.take mth).map Prod.fst with htg
  have hcongr : vl.countP (fun p => tg.contains p.1 && ex.contains p.1)
      = vl.countP (fun p => tg.contains p.1) := by
    refine List.countP_congr fun p hp => ?_
    rw [hex p hp, Bool.and_true]
  rw [hcongr]
  have hnodup := nodup_fst_visibleMessages chat
  rw [← hvl] at hnodup
  have hsplit : vl = vl.take mth ++ vl.drop mth := (List.take_append_drop mth vl).symm
  have hdisj : (List.map Prod.fst (vl.take mth)).Disjoint (List.map Prod.fst (vl.drop mth)) := by
    have : (List.map Prod.fst (vl.take mth) ++ List.map Prod.fst (vl.drop mth)).Nodup := by
      rw [← List.map_append]
      rw [← hsplit]
      exact hnodup
    exact (List.nodup_append.mp this).2.2
  conv_lhs => rw [hsplit]
  rw [List.countP_append]
  have htake : (vl.take mth).countP (fun p => tg.contains p.1) = (vl.take mth).length := by
    rw [List.countP_eq_length]
    intro p hp
    have : p.1 ∈ tg := htg ▸ List.mem_map_of_mem Prod.fst hp
    exact List.elem_iff.mpr this
  have hdrop : (vl.drop mth).countP (fun p => tg.contains p.1) = 0 := by
    rw [List.countP_eq_zero]
    intro p hp hcontains
    have h1 : p.1 ∈ tg := List.elem_iff.mp hcontains
    have h2 : p.1 ∈ List.map Prod.fst (vl.drop mth) := List.mem_map_of_mem Prod.fst hp
    exact hdisj h1 h2
  rw [htake, hdrop, List.length_take]
  omega

theorem countP_visible_enumFrom (chat : List Message) (n : Nat) :
    (List.enumFrom n chat).countP (fun p => !p.2.is_system)
      = chat.countP (fun m => !m.is_system) := by
  induction chat generalizing n with
  | nil => rfl
  | cons m rest ih => simp [List.enumFrom_cons, List.countP_cons, ih]

theorem length_visibleMessages (chat : List Message) :
    (visibleMessages chat).length = countVisible chat := by
  rw [visibleMessages, countVisible, ← List.countP_eq_length_filter]
  exact countP_visible_enumFrom chat 0

/-- **C6.** Auto-hide hides nothing when the visible count is at or below
the threshold; it never touches a message whose index has not been
extracted; and when every visible message has been extracted and the
visible count exceeds the threshold, it hides exactly
`floor((visibleCount - threshold) / 2) * 2` messages — the targeted
indices being the oldest visible ones (`autoHideTargets` takes the *first*
`messagesToHide` entries of the index-ordered visible list). -/
theorem claim_C6_auto_hide_threshold_policy :
    (∀ (chat : List Message) (s : AutoHideSettings) (ex : List Nat),
      (visibleMessages chat).length ≤ effectiveThreshold s →
        autoHideOldMessages chat s ex = chat) ∧
    (∀ (chat : List Message) (s : AutoHideSettings) (ex : List Nat) (i : Nat),
      i ∉ ex → (autoHideOldMessages chat s ex)[i]? = chat[i]?) ∧
    (∀ (chat : List Message) (s : AutoHideSettings) (ex : List Nat),
      s.autoHideEnabled = true →
      effectiveThreshold s < (visibleMessages chat).length →
      (∀ p ∈ visibleMessages chat, ex.contains p.1 = true) →
      countVisible (autoHideOldMessages chat s ex)
        = countVisible chat
            - ((visibleMessages chat).length - effectiveThreshold s) / 2 * 2) := by
  refine ⟨?_, ?_, ?_⟩
  · intro chat s ex h
    unfold autoHideOldMessages
    by_cases h1 : s.autoHideEnabled <;> simp [h1, h]
  · intro chat s ex i hex
    rw [autoHide_eq_applyHide, getElem?_applyHide]
    cases hx : chat[i]? with
    | none => simp
    | some m => simp [hex]
  · intro chat s ex h1 h2 hex
    have hL : countVisible chat = (visibleMessages chat).length :=
      (length_visibleMessages chat).symm
    by_cases h3 : ((visibleMessages chat).length - effectiveThreshold s) / 2 * 2 = 0
    · have hid : autoHideOldMessages chat s ex = chat := by
        unfold autoHideOldMessages
        simp [h1, Nat.not_le.mpr h2, h3]
      rw [hid, h3]
      omega
    · rw [autoHide_eq_applyHide]
      have htargets : autoHideTargets chat s
          = ((visibleMessages chat).take
              (((visibleMessages chat).length - effectiveThreshold s) / 2 * 2)).map
            Prod.fst := by
        unfold autoHideTargets
        simp [h1, Nat.not_le.mpr h2, h3]
      rw [htargets]
      set mth := ((visibleMessages chat).length - effectiveThreshold s) / 2 * 2 with hmth
      set tg := ((visibleMessages chat).take mth).map Prod.fst with htg
      have hcount := countVisible_applyHide ex tg chat 0
      have hmle : mth ≤ (visibleMessages chat).length := by omega
      have htar := countP_targets chat mth ex hex hmle
      rw [← htg] at htar
      have hrel : (List.enumFrom 0 chat).countP
            (fun p => !p.2.is_system && (tg.contains p.1 && ex.contains p.1))
          = (visibleMessages chat).countP
            (fun p => tg.contains p.1 && ex.contains p.1) := by
        rw [visibleMessages, show chat.enum = List.enumFrom 0 chat from rfl,
          List.countP_filter]
        refine List.countP_congr fun p _ => ?_
        rw [Bool.and_comm]
      rw [hrel, htar] at hcount
      omega

/-- Concrete instance of C6's exact-count part: 5 visible extracted
messages with effective threshold 2 hide `floor(3/2)*2 = 2` messages,
leaving 3 visible. -/
theorem claim_C6_auto_hide_threshold_policy_witness :
    countVisible (autoHideOldMessages (List.replicate 5 plainUserMessage)
        { autoHideEnabled := true, autoHideThreshold := 2 } [0, 1, 2, 3, 4])
      = countVisible (List.replicate 5 plainUserMessage)
          - ((visibleMessages (List.replicate 5 plainUserMessage)).length - 2) / 2 * 2 :=
  claim_C6_auto_hide_threshold_policy.2.2 (List.replicate 5 plainUserMessage)
    { autoHideEnabled := true, autoHideThreshold := 2 } [0, 1, 2, 3, 4]
    rfl (by decide) (by decide)

theorem Message.hide_self (m : Message) (h : m.is_system = true) :
    { m with is_system := true } = m := by
  cases m
  simp_all

/-- **C8.** The system only changes the `is_system` visibility flag of
messages it auto-hides or auto-unhides itself: whenever
`autoHideOldMessages` changes a message, that message was visible, the
change is exactly setting the flag, and its index is both targeted by the
auto-hide policy and in the extracted set; whenever
`unhideMessagesForBranch` changes a message, that message was hidden and
carries `is_user`/`name` fields (so it was auto-hidden, not a true system
message), and the change is exactly clearing the flag. -/
theorem claim_C8_visibility_flag_discipline :
    (∀ (chat : List Message) (s : AutoHideSettings) (ex : List Nat) (i : Nat)
      (m m' : Message),
      chat[i]? = some m → (autoHideOldMessages chat s ex)[i]? = some m' → m' ≠ m →
        m.is_system = false ∧ m' = { m with is_system := true } ∧
          i ∈ autoHideTargets chat s ∧ i ∈ ex) ∧
    (∀ (chat : List Message) (i : Nat) (m m' : Message),
      chat[i]? = some m → (unhideMessagesForBranch chat)[i]? = some m' → m' ≠ m →
        m.is_system = true ∧ (m.is_user.isSome = true ∨ m.name.isSome = true) ∧
          m' = { m with is_system := false }) := by
  constructor
  · intro chat s ex i m m' hm hm' hne
    rw [autoHide_eq_applyHide, getElem?_applyHide, hm] at hm'
    simp only [Nat.zero_add, Option.map_some', Option.some_inj] at hm'
    by_cases hc : i ∈ autoHideTargets chat s ∧ i ∈ ex
    · have hif : ((autoHideTargets chat s).contains i && ex.contains i) = true := by
        rw [Bool.and_eq_true]
        exact ⟨List.elem_iff.mpr hc.1, List.elem_iff.mpr hc.2⟩
      rw [if_pos hif] at hm'
      have hms : m.is_system = false := by
        by_contra hms
        rw [Bool.not_eq_false] at hms
        rw [Message.hide_self m hms] at hm'
        exact hne hm'.symm
      exact ⟨hms, hm'.symm, hc.1, hc.2⟩
    · have hif : ¬((autoHideTargets chat s).contains i && ex.contains i) = true := by
        rw [Bool.and_eq_true]
        rintro ⟨ha, hb⟩
        exact hc ⟨List.elem_iff.mp ha, List.elem_iff.mp hb⟩
      rw [if_neg hif] at hm'
      exact absurd hm'.symm hne
  · intro chat i m m' hm hm' hne
    unfold unhideMessagesForBranch at hm'
    by_cases hlen : chat.length = 0
    · rw [List.length_eq_zero] at hlen
      subst hlen
      simp at hm
    · rw [if_neg hlen, List.getElem?_map, hm] at hm'
      simp only [Option.map_some', Option.some_inj] at hm'
      cases hms : m.is_system with
      | false =>
        rw [hms] at hm'
        simp at hm'
        exact absurd hm'.symm hne
      | true =>
        rw [hms] at hm'
        simp only [if_pos rfl] at hm'
        by_cases hpres : (m.is_user.isSome || m.name.isSome) = true
        · rw [if_pos hpres] at hm'
          exact ⟨rfl, by simpa using hpres, hm'.symm⟩
        · rw [if_neg hpres] at hm'
          exact absurd hm'.symm hne

/-- Concrete instance of C8's unhide part: the branch unhide flips exactly
the flag of a hidden regular message. -/
theorem claim_C8_visibility_flag_discipline_witness :
    hiddenUserMessage.is_system = true ∧
    (hiddenUserMessage.is_user.isSome = true ∨ hiddenUserMessage.name.isSome = true) ∧
    { hiddenUserMessage with is_system := false }
      = { hiddenUserMessage with is_system := false } :=
  claim_C8_visibility_flag_discipline.2 [hiddenUserMessage] 0 hiddenUserMessage
    { hiddenUserMessage with is_system := false } rfl (by decide) (by decide)

theorem lookupLoc_setLoc_self (locs : Locations) (key : String) (v l : Location)
    (h : lookupLoc locs key = some l) : lookupLoc (setLoc locs key v) key = some v := by
  induction locs with
  | nil => simp [lookupLoc] at h
  | cons p rest ih =>
    simp only [setLoc, List.map_cons]
    by_cases hk : p.1 = key
    · unfold lookupLoc
      rw [if_pos (by simpa using hk)]
      rw [List.find?_cons_of_pos _ (by simpa using hk)]
      rfl
    · unfold lookupLoc at h ⊢
      rw [if_neg (by simpa using hk)]
      rw [List.find?_cons_of_neg _ (by simpa using hk)] at h ⊢
      exact ih h

theorem lookupLoc_setLoc_cases (locs : Locations) (key : String) (v : Location)
    (k : String) (l : Location) (h : lookupLoc (setLoc locs key v) k = some l) :
    l = v ∨ lookupLoc locs k = some l := by
  induction locs with
  | nil => simp [lookupLoc, setLoc] at h
  | cons p rest ih =>
    simp only [setLoc, List.map_cons] at h
    by_cases hpk : p.1 = k
    · by_cases hk : p.1 = key
      · rw [if_pos (by simpa using hk)] at h
        unfold lookupLoc at h
        rw [List.find?_cons_of_pos _ (by simpa using hpk)] at h
        simp at h
        exact Or.inl h.symm
      · rw [if_neg (by simpa using hk)] at h
        unfold lookupLoc at h
        rw [List.find?_cons_of_pos _ (by simpa using hpk)] at h
        simp at h
        refine Or.inr ?_
        unfold lookupLoc
        rw [List.find?_cons_of_pos _ (by simpa using hpk)]
        simp [h]
    · unfold lookupLoc at h
      rw [List.find?_cons_of_neg _ (by
        intro hcon
        apply hpk
        rw [beq_iff_eq] at hcon
        revert hcon
        split <;> exact fun hcon => hcon)] at h
      rcases ih h with hl | hl
      · exact Or.inl hl
      · refine Or.inr ?_
        unfold lookupLoc at hl ⊢
        rw [List.find?_cons_of_neg _ (by simpa using hpk)]
        exact hl

theorem lookupLoc_append_single_cases (locs : Locations) (n : String) (x : Location)
    (k : String) (l : Location) (h : lookupLoc (locs ++ [(n, x)]) k = some l) :
    lookupLoc locs k = some l ∨ l = x := by
  induction locs with
  | nil =>
    by_cases hnk : n = k
    · unfold lookupLoc at h
      rw [List.nil_append, List.find?_cons_of_pos _ (by simpa using hnk)] at h
      simp at h
      exact Or.inr h.symm
    · unfold lookupLoc at h
      rw [List.nil_append, List.find?_cons_of_neg _ (by simpa using hnk)] at h
      simp at h
  | cons p rest ih =>
    by_cases hpk : p.1 = k
    · unfold lookupLoc at h ⊢
      rw [List.cons_append, List.find?_cons_of_pos _ (by simpa using hpk)] at h
      rw [List.find?_cons_of_pos _ (by simpa using hpk)]
      exact Or.inl h
    · unfold lookupLoc at h ⊢
      rw [List.cons_append, List.find?_cons_of_neg _ (by simpa using hpk)] at h
      rw [List.find?_cons_of_neg _ (by simpa using hpk)]
      exact ih h

/-- **C10.** Linking a memory to a location is idempotent: once a call of
`linkMemoryToLocation` has succeeded, repeating it with the same memory id
and location name (at any later timestamp) returns the stored state
unchanged; and the operation preserves duplicate-freeness of every
location's `memory_ids`, so a location's `memory_ids` list never
accumulates duplicate memory ids. -/
theorem claim_C10_link_memory_to_location_idempotent :
    (∀ (memoryId locationName : String) (locs : Locations) (now now₂ : Int)
      (locs' : Locations),
      linkMemoryToLocation memoryId locationName locs now = some locs' →
      linkMemoryToLocation memoryId locationName locs' now₂ = some locs') ∧
    (∀ (memoryId locationName : String) (locs : Locations) (now : Int)
      (locs' : Locations),
      (∀ k l, lookupLoc locs k = some l → l.memory_ids.Nodup) →
      linkMemoryToLocation memoryId locationName locs now = some locs' →
      ∀ k l, lookupLoc locs' k = some l → l.memory_ids.Nodup) := by
  constructor
  · intro mid name locs now now₂ locs' h
    have key : ∀ (locs1 : Locations),
        (match lookupLoc locs1 (normalizeLocationName name) with
          | none => none
          | some loc =>
            if loc.memory_ids.contains mid then some locs1
            else some (setLoc locs1 (normalizeLocationName name)
              { loc with memory_ids := loc.memory_ids ++ [mid] })) = some locs' →
        ∃ loc', lookupLoc locs' (normalizeLocationName name) = some loc' ∧
          mid ∈ loc'.memory_ids := by
      intro locs1 h1
      cases hlk : lookupLoc locs1 (normalizeLocationName name) with
      | none => rw [hlk] at h1; exact absurd h1 (by simp)
      | some loc =>
        rw [hlk] at h1
        dsimp only at h1
        by_cases hc : loc.memory_ids.contains mid = true
        · rw [if_pos hc] at h1
          injection h1 with h1
          subst h1
          exact ⟨loc, hlk, List.elem_iff.mp hc⟩
        · rw [if_neg hc] at h1
          injection h1 with h1
          subst h1
          exact ⟨_, lookupLoc_setLoc_self locs1 _ _ loc hlk, by simp⟩
    obtain ⟨loc', hlk', hmem⟩ : ∃ loc',
        lookupLoc locs' (normalizeLocationName name) = some loc' ∧
          mid ∈ loc'.memory_ids := by
      cases hget : getLocation locs name with
      | some loc0 =>
        simp only [linkMemoryToLocation, hget] at h
        exact key locs h
      | none =>
        simp only [linkMemoryToLocation, hget] at h
        exact key (upsertLocation locs name now) h
    have hfound : getLocation locs' name = some loc' := by
      simp only [getLocation]
      rw [hlk']
    simp only [linkMemoryToLocation, hfound]
    rw [hlk']
    dsimp only
    rw [if_pos (List.elem_iff.mpr hmem)]
  · intro mid name locs now locs' hnd h
    have upsert_nd : ∀ k l, lookupLoc (upsertLocation locs name now) k = some l →
        l.memory_ids.Nodup := by
      intro k l hl
      simp only [upsertLocation] at hl
      cases hx : lookupLoc locs (normalizeLocationName name) with
      | some existing =>
        rw [hx] at hl
        dsimp only at hl
        rcases lookupLoc_setLoc_cases _ _ _ _ _ hl with hv | hv
        · subst hv
          exact hnd (normalizeLocationName name) existing hx
        · exact hnd _ _ hv
      | none =>
        rw [hx] at hl
        dsimp only at hl
        rcases lookupLoc_append_single_cases _ _ _ _ _ hl with hv | hv
        · exact hnd _ _ hv
        · subst hv
          simp
    have key2 : ∀ (locs1 : Locations),
        (∀ k l, lookupLoc locs1 k = some l → l.memory_ids.Nodup) →
        (match lookupLoc locs1 (normalizeLocationName name) with
          | none => none
          | some loc =>
            if loc.memory_ids.contains mid then some locs1
            else some (setLoc locs1 (normalizeLocationName name)
              { loc with memory_ids := loc.memory_ids ++ [mid] })) = some locs' →
        ∀ k l, lookupLoc locs' k = some l → l.memory_ids.Nodup := by
      intro locs1 hnd1 h1 k l hl
      cases hlk : lookupLoc locs1 (normalizeLocationName name) with
      | none => rw [hlk] at h1; exact absurd h1 (by simp)
      | some loc =>
        rw [hlk] at h1
        dsimp only at h1
        by_cases hc : loc.memory_ids.contains mid = true
        · rw [if_pos hc] at h1
          injection h1 with h1
          subst h1
          exact hnd1 k l hl
        · rw [if_neg hc] at h1
          injection h1 with h1
          subst h1
          rcases lookupLoc_setLoc_cases _ _ _ _ _ hl with hv | hv
          · subst hv
            dsimp only
            have hold := hnd1 _ _ hlk
            have hnotmem : mid ∉ loc.memory_ids := fun hm => hc (List.elem_iff.mpr hm)
            rw [List.nodup_append]
            exact ⟨hold, List.nodup_singleton mid, fun a ha hb => by
              simp at hb
              subst hb
              exact hnotmem ha⟩
          · exact hnd1 _ _ hv
    cases hget : getLocation locs name with
    | some loc0 =>
      simp only [linkMemoryToLocation, hget] at h
      exact key2 locs hnd h
    | none =>
      simp only [linkMemoryToLocation, hget] at h
      exact key2 (upsertLocation locs name now) upsert_nd h

/-- Concrete instance of C10: relinking `"m1"` to `"Home"` leaves the
store unchanged. -/
theorem claim_C10_link_memory_to_location_idempotent_witness :
    linkMemoryToLocation "m1" "Home" homeLinked 1 = some homeLinked :=
  claim_C10_link_memory_to_location_idempotent.1 "m1" "Home" [] 0 1 homeLinked rfl

end MemoryVault
